import Mathlib

/-!
Verification of the Microsoft Teams attendance tracker.

The development embeds the two Python modules of the repository:

* `attendance_reader.py` — the sectioned-CSV reader: a scan that maps
  section headings to data-start offsets, and accessors that decode row
  ranges into records.
* `attendance_tracker.py` — the qualification engine
  `get_qualified_participants`, which aggregates per-activity overlap
  minutes per email and returns the emails meeting a threshold.

Timestamps are modelled as integers (seconds); Python `float`
arithmetic on whole-second datetime differences is exact, and the
attendance fraction is modelled as an exact rational.  The raw csv rows
(the external row supplier) are a `List (List String)`, and the
configured `datetime.strptime` pattern is an abstract parse function
`String → Option ℤ`.  Python failures (KeyError, IndexError, ValueError)
are modelled by `Option`.
-/

/-- Record type for one row of the `3. In-Meeting Activities` section
(`InMeetingActivity` in `attendance_reader.py`). -/
structure InMeetingActivity where
  name : String
  email : String
  join_time : ℤ
  leave_time : ℤ
  duration : String
  role : String
deriving DecidableEq

/-- Record type for one row of the `2. Participants` section
(`Participant` in `attendance_reader.py`). -/
structure Participant where
  email : String
  first_join : ℤ
  last_leave : ℤ
  in_meeting_duration : String
  participant_id : String
  role : String
deriving DecidableEq

/-- Python `int(x)` on a real value: truncation toward zero. -/
def truncToZero (q : ℚ) : ℤ := if 0 ≤ q then ⌊q⌋ else ⌈q⌉

/-- `minimum_minutes_threshold` from `get_qualified_participants`
(attendance_tracker.py lines 56-59):
`int(((end - start).total_seconds() // 60) * minimum_attendance_percentage)`.
The float floor-division by 60 is `Int.fdiv`; the outer `int(...)`
truncates toward zero. -/
def minimum_minutes_threshold (session_start_time session_end_time : ℤ)
    (minimum_attendance_percentage : ℚ) : ℤ :=
  truncToZero ((((session_end_time - session_start_time).fdiv 60 : ℤ) : ℚ)
    * minimum_attendance_percentage)

/-- The minutes one activity adds to its email's accumulator
(attendance_tracker.py lines 65-77): zero when
`join_time >= session_end_time` (the sentinel `start_time = 0` branch),
otherwise
`int((min(end, join_time) - max(start, leave_time)).total_seconds() // 60)`. -/
def activity_contribution (session_start_time session_end_time : ℤ)
    (activity : InMeetingActivity) : ℤ :=
  if session_end_time ≤ activity.join_time then 0
  else (min session_end_time activity.join_time
    - max session_start_time activity.leave_time).fdiv 60

/-- Python `activity.email in participant_time_mapping` on the
association-list model of the dict. -/
def keysContain (m : List (String × ℤ)) (email : String) : Bool :=
  m.any (fun p => p.1 = email)

/-- `if activity.email not in participant_time_mapping: participant_time_mapping[activity.email] = 0`
(attendance_tracker.py lines 62-63). -/
def ensure_key (m : List (String × ℤ)) (email : String) : List (String × ℤ) :=
  if keysContain m email then m else m ++ [(email, 0)]

/-- `participant_time_mapping[activity.email] += amount`
(attendance_tracker.py lines 73-77): bump the entry with the given key. -/
def add_to_key (m : List (String × ℤ)) (email : String) (amount : ℤ) :
    List (String × ℤ) :=
  m.map (fun p => if p.1 = email then (p.1, p.2 + amount) else p)

/-- One iteration of the `for activity in ...` loop of
`get_qualified_participants` (attendance_tracker.py lines 61-77). -/
def process_activity (session_start_time session_end_time : ℤ)
    (m : List (String × ℤ)) (activity : InMeetingActivity) :
    List (String × ℤ) :=
  add_to_key (ensure_key m activity.email) activity.email
    (activity_contribution session_start_time session_end_time activity)

/-- The `participant_time_mapping` dict after the activity loop of
`get_qualified_participants`, as an insertion-ordered association list. -/
def participant_time_mapping (session_start_time session_end_time : ℤ)
    (activities : List InMeetingActivity) : List (String × ℤ) :=
  activities.foldl (process_activity session_start_time session_end_time) []

/-- `get_qualified_participants` (attendance_tracker.py lines 46-83),
with the decoded activity list passed in place of
`self._attendance_reader.in_meeting_activities`. -/
def get_qualified_participants (activities : List InMeetingActivity)
    (session_start_time session_end_time : ℤ)
    (minimum_attendance_percentage : ℚ) : List String :=
  ((participant_time_mapping session_start_time session_end_time activities).filter
    (fun p => minimum_minutes_threshold session_start_time session_end_time
      minimum_attendance_percentage ≤ p.2)).map Prod.fst

/-- Modelled from the spec (§4.3 step 2): the per-activity overlap
minutes — zero when `joinTime >= windowEnd`, otherwise
`floor((min(windowEnd, joinTime) - max(windowStart, leaveTime)) / 60)`,
with `overlapStart` taken from `leave_time`, `overlapEnd` from
`join_time`, and no clamping of negative intervals. -/
def specContribution (windowStart windowEnd : ℤ) (a : InMeetingActivity) : ℤ :=
  if windowEnd ≤ a.join_time then 0
  else (min windowEnd a.join_time - max windowStart a.leave_time).fdiv 60

/-- Modelled from the spec (§4.3 step 1, read literally):
`thresholdMinutes = floor((windowEnd - windowStart in seconds / 60) * minFraction)`
with an exact division by 60 and a single final floor. -/
def specThreshold (windowStart windowEnd : ℤ) (minFraction : ℚ) : ℤ :=
  ⌊(((windowEnd - windowStart : ℤ) : ℚ) / 60) * minFraction⌋

/-- The total overlap minutes the engine accumulates for one email:
the sum of the spec's per-activity contributions over that email's
activities, in sequence order. -/
def total_overlap_minutes (windowStart windowEnd : ℤ)
    (activities : List InMeetingActivity) (email : String) : ℤ :=
  ((activities.filter (fun a => a.email = email)).map
    (specContribution windowStart windowEnd)).sum

/-- First occurrence of each element, in first-appearance order. -/
def firstSeen : List String → List String
  | [] => []
  | x :: xs => x :: (firstSeen xs).filter (fun y => y ≠ x)

lemma specContribution_eq_activity_contribution (s e : ℤ)
    (a : InMeetingActivity) :
    specContribution s e a = activity_contribution s e a := rfl

lemma total_overlap_minutes_nil (s e : ℤ) (em : String) :
    total_overlap_minutes s e [] em = 0 := rfl

lemma total_overlap_minutes_cons (s e : ℤ) (a : InMeetingActivity)
    (rest : List InMeetingActivity) (em : String) :
    total_overlap_minutes s e (a :: rest) em
      = (if a.email = em then specContribution s e a else 0)
        + total_overlap_minutes s e rest em := by
  unfold total_overlap_minutes
  rw [List.filter_cons]
  by_cases h : a.email = em
  · simp [h]
  · simp [h]

lemma firstSeen_filter (p : String → Bool) :
    ∀ l : List String, firstSeen (l.filter p) = (firstSeen l).filter p := by
  intro l
  induction l with
  | nil => rfl
  | cons x xs ih =>
    by_cases hp : p x = true
    · rw [List.filter_cons]
      simp only [hp, if_pos]
      show firstSeen (x :: xs.filter p)
        = (x :: (firstSeen xs).filter (fun y => y ≠ x)).filter p
      rw [firstSeen]
      rw [List.filter_cons]
      simp only [hp, if_pos, ih]
      congr 1
      rw [List.filter_filter, List.filter_filter]
      apply List.filter_congr
      intro y _
      rw [Bool.and_comm]
    · have hp' : p x = false := by simp_all
      rw [List.filter_cons]
      simp only [hp', Bool.false_eq_true, if_neg, not_false_eq_true, ih]
      show (firstSeen xs).filter p
        = (x :: (firstSeen xs).filter (fun y => y ≠ x)).filter p
      rw [List.filter_cons]
      simp only [hp', Bool.false_eq_true, if_neg, not_false_eq_true]
      rw [List.filter_filter]
      apply List.filter_congr
      intro y _
      by_cases hyx : y = x
      · subst hyx; simp [hp']
      · simp [hyx]

lemma mem_firstSeen (y : String) : ∀ l : List String, y ∈ firstSeen l ↔ y ∈ l := by
  intro l
  induction l with
  | nil => simp [firstSeen]
  | cons x xs ih =>
    rw [firstSeen]
    by_cases hyx : y = x
    · subst hyx; simp
    · simp [List.mem_filter, hyx, ih]

lemma firstSeen_nodup : ∀ l : List String, (firstSeen l).Nodup := by
  intro l
  induction l with
  | nil => exact List.nodup_nil
  | cons x xs ih =>
    rw [firstSeen]
    refine List.nodup_cons.2 ⟨?_, List.Nodup.filter _ ih⟩
    intro hmem
    have := (List.mem_filter.1 hmem).2
    simp at this

lemma keysContain_append_single (m : List (String × ℤ)) (k : String) (v : ℤ)
    (em : String) :
    keysContain (m ++ [(k, v)]) em = (keysContain m em || decide (k = em)) := by
  unfold keysContain
  rw [List.any_append]
  simp

lemma keysContain_map_bump (k : String) (c : ℤ) (em : String) :
    ∀ m : List (String × ℤ),
      keysContain (m.map (fun p => if p.1 = k then (p.1, p.2 + c) else p)) em
        = keysContain m em := by
  intro m
  induction m with
  | nil => rfl
  | cons q rest ih =>
    unfold keysContain at ih ⊢
    by_cases h : q.1 = k <;> simp [h, ih]

lemma process_activity_mem (s e : ℤ) (m : List (String × ℤ))
    (a : InMeetingActivity) (h : keysContain m a.email = true) :
    process_activity s e m a
      = m.map (fun p => if p.1 = a.email
          then (p.1, p.2 + activity_contribution s e a) else p) := by
  unfold process_activity ensure_key add_to_key
  rw [if_pos h]

lemma process_activity_not_mem (s e : ℤ) (m : List (String × ℤ))
    (a : InMeetingActivity) (h : keysContain m a.email = false) :
    process_activity s e m a
      = m ++ [(a.email, activity_contribution s e a)] := by
  unfold process_activity ensure_key add_to_key
  rw [if_neg (by simp [h])]
  rw [List.map_append]
  have hall : ∀ p ∈ m, p.1 ≠ a.email := by
    intro p hp
    have := List.any_eq_false.1 h p hp
    simpa using this
  have h1 : m.map (fun p => if p.1 = a.email
      then (p.1, p.2 + activity_contribution s e a) else p) = m := by
    conv_rhs => rw [← List.map_id m]
    apply List.map_congr_left
    intro p hp
    simp [hall p hp]
  rw [h1]
  simp

lemma foldl_process_char (s e : ℤ) (acts : List InMeetingActivity) :
    ∀ m : List (String × ℤ),
      acts.foldl (process_activity s e) m
        = m.map (fun p => (p.1, p.2 + total_overlap_minutes s e acts p.1))
          ++ (firstSeen ((acts.map (fun a => a.email)).filter
              (fun em => !keysContain m em))).map
            (fun em => (em, total_overlap_minutes s e acts em)) := by
  induction acts with
  | nil =>
    intro m
    simp [total_overlap_minutes_nil, firstSeen]
  | cons a rest ih =>
    intro m
    rw [List.foldl_cons]
    by_cases hmem : keysContain m a.email = true
    · rw [process_activity_mem s e m a hmem, ih]
      have hleft : (m.map (fun p => if p.1 = a.email
            then (p.1, p.2 + activity_contribution s e a) else p)).map
              (fun p => (p.1, p.2 + total_overlap_minutes s e rest p.1))
          = m.map (fun p =>
              (p.1, p.2 + total_overlap_minutes s e (a :: rest) p.1)) := by
        rw [List.map_map]
        apply List.map_congr_left
        intro q _
        simp only [Function.comp]
        by_cases hqa : q.1 = a.email
        · rw [if_pos hqa, total_overlap_minutes_cons, if_pos hqa.symm]
          simp [specContribution_eq_activity_contribution, add_assoc]
        · rw [if_neg hqa, total_overlap_minutes_cons,
            if_neg (fun hh => hqa hh.symm)]
          simp
      rw [hleft]
      congr 1
      have hfilt : ((a :: rest).map (fun a => a.email)).filter
            (fun em => !keysContain m em)
          = (rest.map (fun a => a.email)).filter
              (fun em => !keysContain m em) := by
        rw [List.map_cons, List.filter_cons]
        simp [hmem]
      rw [hfilt]
      have hkeys : ∀ em, (!keysContain (m.map (fun p => if p.1 = a.email
            then (p.1, p.2 + activity_contribution s e a) else p)) em)
          = (!keysContain m em) := by
        intro em
        rw [keysContain_map_bump]
      rw [List.filter_congr (fun em _ => hkeys em)]
      apply List.map_congr_left
      intro em hem
      have hmemF := (mem_firstSeen em _).1 hem
      have hne : em ≠ a.email := by
        intro hh
        subst hh
        have := (List.mem_filter.1 hmemF).2
        rw [hmem] at this
        simp at this
      rw [total_overlap_minutes_cons, if_neg (fun hh => hne hh.symm)]
      simp
    · have hmem' : keysContain m a.email = false := by
        simpa using hmem
      rw [process_activity_not_mem s e m a hmem', ih, List.map_append]
      have hall : ∀ p ∈ m, p.1 ≠ a.email := by
        intro p hp
        have := List.any_eq_false.1 hmem' p hp
        simpa using this
      have hleft : m.map (fun p =>
            (p.1, p.2 + total_overlap_minutes s e rest p.1))
          = m.map (fun p =>
              (p.1, p.2 + total_overlap_minutes s e (a :: rest) p.1)) := by
        apply List.map_congr_left
        intro q hq
        rw [total_overlap_minutes_cons, if_neg (fun hh => hall q hq hh.symm)]
        simp
      rw [hleft]
      have hfilt2 : ((rest.map (fun a => a.email)).filter
            (fun em => !keysContain (m ++ [(a.email,
              activity_contribution s e a)]) em))
          = ((rest.map (fun a => a.email)).filter
              (fun em => !keysContain m em)).filter
                (fun em => em ≠ a.email) := by
        rw [List.filter_filter]
        apply List.filter_congr
        intro em _
        rw [keysContain_append_single]
        by_cases hh : em = a.email
        · subst hh; simp
        · have hh2 : a.email ≠ em := Ne.symm hh
          simp [hh, hh2]
      have hfilt3 : ((a :: rest).map (fun a => a.email)).filter
            (fun em => !keysContain m em)
          = a.email :: (rest.map (fun a => a.email)).filter
              (fun em => !keysContain m em) := by
        rw [List.map_cons, List.filter_cons]
        simp [hmem']
      rw [hfilt2, hfilt3, firstSeen_filter, firstSeen]
      rw [List.append_assoc]
      congr 1
      rw [List.map_cons, List.map_cons, List.map_nil, List.cons_append,
        List.nil_append]
      congr 1
      · simp [total_overlap_minutes_cons,
          specContribution_eq_activity_contribution]
      · apply List.map_congr_left
        intro em hem
        have hne : a.email ≠ em := by
          have := (List.mem_filter.1 hem).2
          simp at this
          exact Ne.symm this
        simp [total_overlap_minutes_cons, hne]

lemma participant_time_mapping_eq (s e : ℤ) (acts : List InMeetingActivity) :
    participant_time_mapping s e acts
      = (firstSeen (acts.map (fun a => a.email))).map
          (fun em => (em, total_overlap_minutes s e acts em)) := by
  unfold participant_time_mapping
  rw [foldl_process_char]
  simp [keysContain]

lemma get_qualified_participants_eq (acts : List InMeetingActivity)
    (s e : ℤ) (f : ℚ) :
    get_qualified_participants acts s e f
      = (firstSeen (acts.map (fun a => a.email))).filter
          (fun em => minimum_minutes_threshold s e f
            ≤ total_overlap_minutes s e acts em) := by
  unfold get_qualified_participants
  rw [participant_time_mapping_eq, List.filter_map, List.map_map]
  have h1 : (Prod.fst ∘ fun em : String =>
      (em, total_overlap_minutes s e acts em)) = id := rfl
  have h2 : ((fun p : String × ℤ =>
        decide (minimum_minutes_threshold s e f ≤ p.2))
      ∘ fun em : String => (em, total_overlap_minutes s e acts em))
    = fun em : String => decide (minimum_minutes_threshold s e f
        ≤ total_overlap_minutes s e acts em) := rfl
  rw [h1, h2, List.map_id]

lemma mem_get_qualified_iff (acts : List InMeetingActivity) (s e : ℤ)
    (f : ℚ) (em : String) :
    em ∈ get_qualified_participants acts s e f
      ↔ em ∈ acts.map (fun a => a.email)
        ∧ minimum_minutes_threshold s e f
            ≤ total_overlap_minutes s e acts em := by
  rw [get_qualified_participants_eq, List.mem_filter, mem_firstSeen]
  simp

lemma fdiv_sixty_nonneg {a : ℤ} (h : 0 ≤ a) : 0 ≤ a.fdiv 60 :=
  Int.fdiv_nonneg h (by norm_num)

lemma fdiv_sixty_nonpos {a : ℤ} (h : a ≤ 0) : a.fdiv 60 ≤ 0 := by
  rw [Int.fdiv_eq_ediv a (by norm_num : (0:ℤ) ≤ 60)]
  calc a / 60 ≤ 0 / 60 := Int.ediv_le_ediv (by norm_num) h
    _ = 0 := by norm_num

lemma truncToZero_mono {q r : ℚ} (h : q ≤ r) :
    truncToZero q ≤ truncToZero r := by
  unfold truncToZero
  by_cases hq : 0 ≤ q
  · rw [if_pos hq, if_pos (le_trans hq h)]
    exact Int.floor_le_floor h
  · rw [if_neg hq]
    by_cases hr : 0 ≤ r
    · rw [if_pos hr]
      calc ⌈q⌉ ≤ 0 := Int.ceil_le.mpr (by exact_mod_cast le_of_not_le hq)
        _ ≤ ⌊r⌋ := Int.le_floor.mpr (by exact_mod_cast hr)
    · rw [if_neg hr]
      exact Int.ceil_le_ceil h

lemma truncToZero_nonpos {q : ℚ} (h : q ≤ 0) : truncToZero q ≤ 0 := by
  unfold truncToZero
  by_cases hq : 0 ≤ q
  · rw [if_pos hq]
    calc ⌊q⌋ ≤ ⌊(0:ℚ)⌋ := Int.floor_le_floor h
      _ = 0 := by norm_num
  · rw [if_neg hq]
    exact Int.ceil_le.mpr (by exact_mod_cast h)

lemma minimum_minutes_threshold_mono (s e : ℤ) (hse : s ≤ e) {f1 f2 : ℚ}
    (h : f1 ≤ f2) :
    minimum_minutes_threshold s e f1 ≤ minimum_minutes_threshold s e f2 := by
  unfold minimum_minutes_threshold
  apply truncToZero_mono
  have hm : (0:ℚ) ≤ (((e - s).fdiv 60 : ℤ) : ℚ) := by
    exact_mod_cast fdiv_sixty_nonneg (by omega)
  exact mul_le_mul_of_nonneg_left h hm

lemma minimum_minutes_threshold_nonpos (s e : ℤ) (hse : e ≤ s) {f : ℚ}
    (hf0 : 0 ≤ f) :
    minimum_minutes_threshold s e f ≤ 0 := by
  unfold minimum_minutes_threshold
  apply truncToZero_nonpos
  have hm : (((e - s).fdiv 60 : ℤ) : ℚ) ≤ 0 := by
    exact_mod_cast fdiv_sixty_nonpos (by omega)
  exact mul_nonpos_iff.mpr (Or.inr ⟨hm, hf0⟩)

/-- Claim C1: in `get_qualified_participants`, an activity with
`join_time >= windowEnd` contributes exactly 0 minutes, and any other
activity contributes
`floor((min(windowEnd, join_time) - max(windowStart, leave_time)) / 60)`
minutes — `overlapStart` from `leave_time`, `overlapEnd` from
`join_time` — with no clamping of negative intervals: the code's
per-activity contribution equals the spec formula, every accumulator
entry of `participant_time_mapping` is the sum of the spec formula over
that email's activities, and a negative unclamped contribution occurs. -/
theorem c1_overlap_formula :
    (∀ (s e : ℤ) (a : InMeetingActivity),
      activity_contribution s e a = specContribution s e a)
    ∧ (∀ (s e : ℤ) (acts : List InMeetingActivity) (p : String × ℤ),
        p ∈ participant_time_mapping s e acts →
          p.2 = total_overlap_minutes s e acts p.1)
    ∧ specContribution 0 0 ⟨"a", "x", -120, 0, "", ""⟩ = -2 := by
  refine ⟨fun s e a => rfl, ?_, by decide⟩
  intro s e acts p hp
  rw [participant_time_mapping_eq] at hp
  obtain ⟨em, _, rfl⟩ := List.mem_map.1 hp
  rfl

theorem c1_overlap_formula_witness :
    (("x", (0:ℤ)) ∈ participant_time_mapping 0 60 [⟨"a", "x", 30, 0, "", ""⟩])
    ∧ ("x", (0:ℤ)).2
        = total_overlap_minutes 0 60 [⟨"a", "x", 30, 0, "", ""⟩]
            ("x", (0:ℤ)).1 :=
  ⟨by decide,
    c1_overlap_formula.2.1 0 60 [⟨"a", "x", 30, 0, "", ""⟩] ("x", 0) (by decide)⟩

/-- Claim C2 counterexample: at window `[0, 90]` seconds with fraction
`9/10`, the code's threshold `int((90 // 60) * 0.9) = int(0.9)` is `0`,
while the spec's literal `floor((90 / 60) * 0.9) = floor(1.35)` is `1`:
the code floors the duration to whole minutes before applying the
fraction. -/
theorem c2_threshold_counterexample :
    minimum_minutes_threshold 0 90 (9/10) ≠ specThreshold 0 90 (9/10)
    ∧ minimum_minutes_threshold 0 90 (9/10) = 0
    ∧ specThreshold 0 90 (9/10) = 1 := by
  have h1 : minimum_minutes_threshold 0 90 (9/10) = 0 := by
    unfold minimum_minutes_threshold truncToZero
    rw [show ((90:ℤ) - 0).fdiv 60 = 1 from by decide]
    norm_num
  have h2 : specThreshold 0 90 (9/10) = 1 := by
    unfold specThreshold
    norm_num
  refine ⟨by rw [h1, h2]; norm_num, h1, h2⟩

/-- Claim C2 amended: the threshold first floors the window duration to
whole minutes (`(windowEnd - windowStart in seconds) // 60`), then
multiplies by `minFraction` and converts with Python `int(...)`; for
`windowStart ≤ windowEnd` and `minFraction ≥ 0` that conversion is a
floor, so `thresholdMinutes = floor(floor(duration / 60) * minFraction)`. -/
theorem c2_threshold_floor_before_fraction (s e : ℤ) (f : ℚ)
    (hse : s ≤ e) (hf : 0 ≤ f) :
    minimum_minutes_threshold s e f = ⌊(((e - s).fdiv 60 : ℤ) : ℚ) * f⌋ := by
  unfold minimum_minutes_threshold truncToZero
  have hm : (0:ℚ) ≤ (((e - s).fdiv 60 : ℤ) : ℚ) := by
    exact_mod_cast fdiv_sixty_nonneg (by omega)
  rw [if_pos (mul_nonneg hm hf)]

theorem c2_threshold_floor_before_fraction_witness :
    ((0:ℤ) ≤ 90) ∧ ((0:ℚ) ≤ 9/10)
    ∧ minimum_minutes_threshold 0 90 (9/10)
        = ⌊((((90:ℤ) - 0).fdiv 60 : ℤ) : ℚ) * (9/10)⌋ :=
  ⟨by norm_num, by norm_num,
    c2_threshold_floor_before_fraction 0 90 (9/10) (by norm_num) (by norm_num)⟩

/-- Claim C3 counterexample: with `windowEnd = windowStart = 0` and
fraction `1`, the email `"x"` appears in the activity sequence but does
not qualify: its single activity has `join_time < windowEnd`, so the
unclamped overlap formula contributes `-2` minutes, below the zero
threshold. -/
theorem c3_inverted_window_counterexample :
    ((0:ℤ) ≤ 0)
    ∧ "x" ∈ ([⟨"a", "x", -120, 0, "", ""⟩] : List InMeetingActivity).map
        (fun a => a.email)
    ∧ "x" ∉ get_qualified_participants [⟨"a", "x", -120, 0, "", ""⟩] 0 0 1 := by
  refine ⟨le_refl 0, by decide, ?_⟩
  intro hmem
  rw [mem_get_qualified_iff] at hmem
  have hthr : minimum_minutes_threshold 0 0 1 = 0 := by
    unfold minimum_minutes_threshold truncToZero
    rw [show ((0:ℤ) - 0).fdiv 60 = 0 from by decide]
    norm_num
  have htot : total_overlap_minutes 0 0 [⟨"a", "x", -120, 0, "", ""⟩] "x"
      = -2 := by decide
  rw [hthr, htot] at hmem
  exact absurd hmem.2 (by norm_num)

/-- Claim C3 amended: when `windowEnd ≤ windowStart` and
`0 ≤ minFraction`, the threshold is at most zero, so every email of the
activity sequence whose accumulated (unclamped) total is nonnegative is
in the qualified set; an email whose negative contributions push its
total below the threshold can still fail to qualify. -/
theorem c3_inverted_window_qualifies (acts : List InMeetingActivity)
    (s e : ℤ) (f : ℚ) (em : String) (hw : e ≤ s) (hf0 : 0 ≤ f)
    (hem : em ∈ acts.map (fun a => a.email))
    (htot : 0 ≤ total_overlap_minutes s e acts em) :
    em ∈ get_qualified_participants acts s e f := by
  rw [mem_get_qualified_iff]
  exact ⟨hem, le_trans (minimum_minutes_threshold_nonpos s e hw hf0) htot⟩

theorem c3_inverted_window_qualifies_witness :
    ((0:ℤ) ≤ 0) ∧ ((0:ℚ) ≤ 1)
    ∧ "x" ∈ ([⟨"a", "x", 10, 0, "", ""⟩] : List InMeetingActivity).map
        (fun a => a.email)
    ∧ ((0:ℤ) ≤ total_overlap_minutes 0 0 [⟨"a", "x", 10, 0, "", ""⟩] "x")
    ∧ "x" ∈ get_qualified_participants [⟨"a", "x", 10, 0, "", ""⟩] 0 0 1 :=
  ⟨le_refl 0, by norm_num, by decide, by decide,
    c3_inverted_window_qualifies [⟨"a", "x", 10, 0, "", ""⟩] 0 0 1 "x"
      (le_refl 0) (by norm_num) (by decide) (by decide)⟩

/-- Claim C4 counterexample: monotonicity in the fraction fails when the
window is inverted. With window `[-100, -120]` (duration `-20` s, so the
floored minute count is `-1`) and fractions `f1 = 0 < f2 = 1`, the
thresholds are `0` and `-1` respectively, and an email with accumulated
total `-1` qualifies at `f2` but not at `f1`. -/
theorem c4_monotonicity_counterexample :
    ((0:ℚ) < 1)
    ∧ "x" ∈ get_qualified_participants
        [⟨"a", "x", -130, -100, "", ""⟩] (-100) (-120) 1
    ∧ "x" ∉ get_qualified_participants
        [⟨"a", "x", -130, -100, "", ""⟩] (-100) (-120) 0 := by
  have htot : total_overlap_minutes (-100) (-120)
      [⟨"a", "x", -130, -100, "", ""⟩] "x" = -1 := by decide
  refine ⟨by norm_num, ?_, ?_⟩
  · rw [mem_get_qualified_iff]
    refine ⟨by decide, ?_⟩
    have hthr : minimum_minutes_threshold (-100) (-120) 1 = -1 := by
      unfold minimum_minutes_threshold truncToZero
      rw [show ((-120:ℤ) - (-100)).fdiv 60 = -1 from by decide]
      norm_num
      rw [show (-1:ℚ) = ((-1:ℤ):ℚ) from by norm_num, Int.ceil_intCast]
    rw [hthr, htot]
  · intro hmem
    rw [mem_get_qualified_iff] at hmem
    have hthr : minimum_minutes_threshold (-100) (-120) 0 = 0 := by
      unfold minimum_minutes_threshold truncToZero
      rw [show ((-120:ℤ) - (-100)).fdiv 60 = -1 from by decide]
      norm_num
    rw [hthr, htot] at hmem
    exact absurd hmem.2 (by norm_num)

/-- Claim C4 amended: for a window with `windowStart ≤ windowEnd` and
fractions `f1 ≤ f2`, the qualified set at `f2` is contained in the
qualified set at `f1` (the threshold is monotone in the fraction only
when the floored window duration is nonnegative; the counterexample
shows it reverses on inverted windows). -/
theorem c4_monotone_for_ordered_window (acts : List InMeetingActivity)
    (s e : ℤ) (f1 f2 : ℚ) (em : String) (hse : s ≤ e) (hf : f1 ≤ f2)
    (hmem : em ∈ get_qualified_participants acts s e f2) :
    em ∈ get_qualified_participants acts s e f1 := by
  rw [mem_get_qualified_iff] at hmem ⊢
  exact ⟨hmem.1,
    le_trans (minimum_minutes_threshold_mono s e hse hf) hmem.2⟩

theorem c4_monotone_for_ordered_window_witness :
    ((0:ℤ) ≤ 30) ∧ ((0:ℚ) ≤ 1)
    ∧ "x" ∈ get_qualified_participants [⟨"a", "x", 29, 0, "", ""⟩] 0 30 1
    ∧ "x" ∈ get_qualified_participants [⟨"a", "x", 29, 0, "", ""⟩] 0 30 0 := by
  have hthr1 : minimum_minutes_threshold 0 30 1 = 0 := by
    unfold minimum_minutes_threshold truncToZero
    rw [show ((30:ℤ) - 0).fdiv 60 = 0 from by decide]
    norm_num
  have htot : total_overlap_minutes 0 30 [⟨"a", "x", 29, 0, "", ""⟩] "x"
      = 0 := by decide
  have hmem2 : "x" ∈ get_qualified_participants
      [⟨"a", "x", 29, 0, "", ""⟩] 0 30 1 := by
    rw [mem_get_qualified_iff]
    refine ⟨by decide, ?_⟩
    rw [hthr1, htot]
  exact ⟨by norm_num, by norm_num, hmem2,
    c4_monotone_for_ordered_window [⟨"a", "x", 29, 0, "", ""⟩] 0 30 0 1 "x"
      (by norm_num) (by norm_num) hmem2⟩

/-- Claim C8: for every activity sequence, window and fraction, the
returned list has no duplicate emails, and it is exactly the
first-appearance-ordered list of the distinct emails filtered by the
threshold test — so its order is the first-appearance order of those
emails in the activity sequence. -/
theorem c8_result_nodup_first_seen_order (acts : List InMeetingActivity)
    (s e : ℤ) (f : ℚ) :
    (get_qualified_participants acts s e f).Nodup
    ∧ get_qualified_participants acts s e f
        = (firstSeen (acts.map (fun a => a.email))).filter
            (fun em => minimum_minutes_threshold s e f
              ≤ total_overlap_minutes s e acts em) := by
  refine ⟨?_, get_qualified_participants_eq acts s e f⟩
  rw [get_qualified_participants_eq]
  exact (firstSeen_nodup _).filter _

/-- `SectionHeading` enumeration from `attendance_reader.py`. -/
inductive SectionHeading where
  | START_TIME
  | PARTICIPANTS
  | MEETING_ACTIVITIES
  | VIDEO_AND_AUDIO_CONSENT
deriving DecidableEq

/-- Lookup in the configured `section_headings_mapping` dict
(`AttendanceConfig.section_headings_mapping`), as an association list. -/
def headingLookup (mapping : List (String × SectionHeading)) (s : String) :
    Option SectionHeading :=
  (mapping.find? (fun p => p.1 = s)).map (fun p => p.2)

/-- Python dict assignment `self._section_indexes[section_id] = v`:
update the existing entry in place, or append a new one. -/
def dictInsert : List (SectionHeading × ℤ) → SectionHeading → ℤ →
    List (SectionHeading × ℤ)
  | [], k, v => [(k, v)]
  | p :: rest, k, v =>
      if p.1 = k then (k, v) :: rest else p :: dictInsert rest k v

/-- Python dict lookup `self._section_indexes[label]`; `none` models a
KeyError. -/
def dictLookup : List (SectionHeading × ℤ) → SectionHeading → Option ℤ
  | [], _ => none
  | p :: rest, k => if p.1 = k then some p.2 else dictLookup rest k

/-- `_extract_section_indexes` (attendance_reader.py lines 61-73),
carrying the running `enumerate` index and the accumulated dict:
reads `record[0]` of every row (`none` models the IndexError on an
empty row), and records `index + 2` for rows whose first field is a
configured heading. -/
def extract_section_indexes_from (mapping : List (String × SectionHeading)) :
    ℕ → List (SectionHeading × ℤ) → List (List String) →
    Option (List (SectionHeading × ℤ))
  | _, acc, [] => some acc
  | index, acc, record :: rest =>
    match record.head? with
    | none => none
    | some section_name =>
      match headingLookup mapping section_name with
      | some section_id =>
          extract_section_indexes_from mapping (index + 1)
            (dictInsert acc section_id ((index : ℤ) + 2)) rest
      | none => extract_section_indexes_from mapping (index + 1) acc rest

/-- The full `_extract_section_indexes` scan, from row 0 and an empty
dict. -/
def extract_section_indexes (mapping : List (String × SectionHeading))
    (rows : List (List String)) : Option (List (SectionHeading × ℤ)) :=
  extract_section_indexes_from mapping 0 [] rows

/-- Whether a row's first field is a heading mapped to `label`. -/
def rowMatchesLabel (mapping : List (String × SectionHeading))
    (label : SectionHeading) (record : List String) : Bool :=
  match record.head? with
  | none => false
  | some t => headingLookup mapping t == some label

/-- A row that has a first field and whose first field is not a
configured heading at all. -/
def isNonHeadingRow (mapping : List (String × SectionHeading))
    (record : List String) : Bool :=
  match record.head? with
  | none => false
  | some t => (headingLookup mapping t).isNone

/-- Modelled from the spec (§4.1): the offset the locator records for a
label — the last row (scanning rows at base index `n`) whose first
field maps to `label` yields `rowIndex + 2`; `none` when no row
matches. -/
def lastMatchOffsetFrom (mapping : List (String × SectionHeading))
    (label : SectionHeading) : ℕ → List (List String) → Option ℤ
  | _, [] => none
  | n, record :: rest =>
    match lastMatchOffsetFrom mapping label (n + 1) rest with
    | some v => some v
    | none =>
        if rowMatchesLabel mapping label record then some ((n : ℤ) + 2)
        else none

/-- `lastMatchOffsetFrom` started at row index 0. -/
def lastMatchOffset (mapping : List (String × SectionHeading))
    (label : SectionHeading) (rows : List (List String)) : Option ℤ :=
  lastMatchOffsetFrom mapping label 0 rows

/-- Left-biased choice on optional offsets. -/
def optOr (a b : Option ℤ) : Option ℤ :=
  match a with
  | some v => some v
  | none => b

/-- Python list indexing `rows[i]` with an `int` index: nonnegative
indexes from the front, negative indexes wrap from the back, out of
range raises (modelled as `none`). -/
def listGetPy (rows : List (List String)) (i : ℤ) : Option (List String) :=
  if 0 ≤ i then rows.get? i.toNat
  else if 0 ≤ (rows.length : ℤ) + i then rows.get? ((rows.length : ℤ) + i).toNat
  else none

/-- The configured heading mapping built in
`AttendanceTracker._init_attendance_reader` (attendance_tracker.py
lines 34-42). -/
def section_headings_mapping : List (String × SectionHeading) :=
  [("Start time", SectionHeading.START_TIME),
   ("2. Participants", SectionHeading.PARTICIPANTS),
   ("3. In-Meeting Activities", SectionHeading.MEETING_ACTIVITIES),
   ("4. Explicit Audio and Video Consent Information",
     SectionHeading.VIDEO_AND_AUDIO_CONSENT)]

/-- `_extract_start_time` (attendance_reader.py lines 91-94): row at
`section_indexes[START_TIME]`, field 1, parsed with the configured
pattern (`parse` models `datetime.strptime` with the configured
format). -/
def extract_start_time (parse : String → Option ℤ)
    (section_indexes : List (SectionHeading × ℤ))
    (rows : List (List String)) : Option ℤ := do
  let start_time_index ← dictLookup section_indexes SectionHeading.START_TIME
  let record ← listGetPy rows start_time_index
  let start_time_str ← record.get? 1
  parse start_time_str

/-- One row of the `2. Participants` section decoded into a
`Participant` (attendance_reader.py lines 102-121): positional fields
1-6, timestamps parsed with the configured pattern. -/
def decodeParticipantRow (parse : String → Option ℤ)
    (record : List String) : Option Participant := do
  let f1 ← record.get? 1
  let join_time ← parse f1
  let f2 ← record.get? 2
  let leave_time ← parse f2
  let in_meeting_duration ← record.get? 3
  let email ← record.get? 4
  let participant_id ← record.get? 5
  let role ← record.get? 6
  some ⟨email, join_time, leave_time, in_meeting_duration, participant_id, role⟩

/-- One row of the `3. In-Meeting Activities` section decoded into an
`InMeetingActivity` (attendance_reader.py lines 131-150). -/
def decodeActivityRow (parse : String → Option ℤ)
    (record : List String) : Option InMeetingActivity := do
  let name ← record.get? 0
  let f1 ← record.get? 1
  let join_time ← parse f1
  let f2 ← record.get? 2
  let leave_time ← parse f2
  let duration ← record.get? 3
  let email ← record.get? 4
  let role ← record.get? 5
  some ⟨name, email, join_time, leave_time, duration, role⟩

/-- Python `range(a, b)` over integers: `a, a+1, ..., b-1`, empty when
`b ≤ a`. -/
def pythonRange (a b : ℤ) : List ℤ :=
  (List.range (b - a).toNat).map (fun i : ℕ => a + (i : ℤ))

/-- The decode loop `for index in range(start, end): record = rows[index]; ...`
shared by `_extract_participants` and `_extract_in_meeting_activities`:
each index is looked up in the rows and decoded; any failure aborts. -/
def decodeRows {α : Type} (dec : List String → Option α)
    (rows : List (List String)) : List ℤ → Option (List α)
  | [] => some []
  | i :: rest => do
    let record ← listGetPy rows i
    let x ← dec record
    let xs ← decodeRows dec rows rest
    some (x :: xs)

/-- `_extract_participants` (attendance_reader.py lines 96-123): decode
rows in `range(section_indexes[PARTICIPANTS], section_indexes[MEETING_ACTIVITIES] - 3)`. -/
def extract_participants (parse : String → Option ℤ)
    (section_indexes : List (SectionHeading × ℤ))
    (rows : List (List String)) : Option (List Participant) := do
  let start_index ← dictLookup section_indexes SectionHeading.PARTICIPANTS
  let activities_index ←
    dictLookup section_indexes SectionHeading.MEETING_ACTIVITIES
  decodeRows (decodeParticipantRow parse) rows
    (pythonRange start_index (activities_index - 3))

/-- `_extract_in_meeting_activities` (attendance_reader.py lines
125-152): decode rows in
`range(section_indexes[MEETING_ACTIVITIES], section_indexes[VIDEO_AND_AUDIO_CONSENT] - 3)`. -/
def extract_in_meeting_activities (parse : String → Option ℤ)
    (section_indexes : List (SectionHeading × ℤ))
    (rows : List (List String)) : Option (List InMeetingActivity) := do
  let start_index ←
    dictLookup section_indexes SectionHeading.MEETING_ACTIVITIES
  let consent_index ←
    dictLookup section_indexes SectionHeading.VIDEO_AND_AUDIO_CONSENT
  decodeRows (decodeActivityRow parse) rows
    (pythonRange start_index (consent_index - 3))

/-- The located offset one obtains through a fresh `AttendanceReader`:
constructor scan (`_extract_section_indexes`) then dict lookup. -/
def locate_offset (mapping : List (String × SectionHeading))
    (rows : List (List String)) (label : SectionHeading) : Option ℤ :=
  (extract_section_indexes mapping rows).bind
    (fun m => dictLookup m label)

/-- The `start_time` property of a fresh `AttendanceReader`. -/
def read_start_time (mapping : List (String × SectionHeading))
    (parse : String → Option ℤ) (rows : List (List String)) : Option ℤ :=
  (extract_section_indexes mapping rows).bind
    (fun m => extract_start_time parse m rows)

/-- The `participants` property of a fresh `AttendanceReader`. -/
def read_participants (mapping : List (String × SectionHeading))
    (parse : String → Option ℤ) (rows : List (List String)) :
    Option (List Participant) :=
  (extract_section_indexes mapping rows).bind
    (fun m => extract_participants parse m rows)

/-- The `in_meeting_activities` property of a fresh `AttendanceReader`. -/
def read_in_meeting_activities (mapping : List (String × SectionHeading))
    (parse : String → Option ℤ) (rows : List (List String)) :
    Option (List InMeetingActivity) :=
  (extract_section_indexes mapping rows).bind
    (fun m => extract_in_meeting_activities parse m rows)

/-- Modelled from the spec (§4.2): decoding a contiguous slice of rows,
one record per row, in order; the first failing row aborts the
decode. -/
def traverseDecode {α : Type} (dec : List String → Option α) :
    List (List String) → Option (List α)
  | [] => some []
  | r :: rs => do
    let x ← dec r
    let xs ← traverseDecode dec rs
    some (x :: xs)

/-- The rows of the half-open index range `[a, b)`. -/
def sliceRows (rows : List (List String)) (a b : ℤ) : List (List String) :=
  (rows.drop a.toNat).take (b - a).toNat

lemma dictLookup_dictInsert (k kq : SectionHeading) (v : ℤ) :
    ∀ m : List (SectionHeading × ℤ),
      dictLookup (dictInsert m k v) kq
        = if kq = k then some v else dictLookup m kq := by
  intro m
  induction m with
  | nil =>
    simp only [dictInsert, dictLookup]
    by_cases h : kq = k
    · subst h; simp
    · rw [if_neg (fun hh => h hh.symm), if_neg h]
  | cons p rest ih =>
    simp only [dictInsert]
    by_cases hpk : p.1 = k
    · rw [if_pos hpk]
      simp only [dictLookup]
      by_cases h : kq = k
      · subst h; simp [hpk]
      · rw [if_neg (fun hh => h hh.symm), if_neg h,
          if_neg (fun hh : p.1 = kq => h (hpk ▸ hh.symm ▸ rfl))]
    · rw [if_neg hpk]
      simp only [dictLookup, ih]
      by_cases h : kq = k
      · rw [if_pos h, if_pos h,
          if_neg (fun hh : p.1 = kq => hpk (h ▸ hh))]
      · rw [if_neg h, if_neg h]

lemma scan_char (mapping : List (String × SectionHeading)) :
    ∀ (rows : List (List String)) (n : ℕ) (acc : List (SectionHeading × ℤ)),
      (∀ r ∈ rows, r ≠ []) →
      ∃ m, extract_section_indexes_from mapping n acc rows = some m
        ∧ ∀ label, dictLookup m label
            = optOr (lastMatchOffsetFrom mapping label n rows)
                (dictLookup acc label) := by
  intro rows
  induction rows with
  | nil =>
    intro n acc _
    exact ⟨acc, rfl, fun label => rfl⟩
  | cons r rest ih =>
    intro n acc h
    have hr : r ≠ [] := h r (List.mem_cons_self r rest)
    obtain ⟨t, ts, rfl⟩ : ∃ t ts, r = t :: ts := by
      cases r with
      | nil => exact absurd rfl hr
      | cons t ts => exact ⟨t, ts, rfl⟩
    have hrest : ∀ x ∈ rest, x ≠ [] :=
      fun x hx => h x (List.mem_cons_of_mem _ hx)
    cases hl : headingLookup mapping t with
    | none =>
      obtain ⟨m, hm, hlk⟩ := ih (n + 1) acc hrest
      refine ⟨m, ?_, ?_⟩
      · simp only [extract_section_indexes_from, List.head?, hl]
        exact hm
      · intro label
        rw [hlk label]
        have hrm : rowMatchesLabel mapping label (t :: ts) = false := by
          simp [rowMatchesLabel, List.head?, hl]
        cases hX : lastMatchOffsetFrom mapping label (n + 1) rest with
        | some v => simp [optOr, lastMatchOffsetFrom, hX]
        | none => simp [optOr, lastMatchOffsetFrom, hX, hrm]
    | some sid =>
      obtain ⟨m, hm, hlk⟩ := ih (n + 1) (dictInsert acc sid ((n : ℤ) + 2)) hrest
      refine ⟨m, ?_, ?_⟩
      · simp only [extract_section_indexes_from, List.head?, hl]
        exact hm
      · intro label
        rw [hlk label, dictLookup_dictInsert]
        by_cases heq : label = sid
        · subst heq
          have hrm : rowMatchesLabel mapping label (t :: ts) = true := by
            simp [rowMatchesLabel, List.head?, hl]
          rw [if_pos rfl]
          cases hX : lastMatchOffsetFrom mapping label (n + 1) rest with
          | some v => simp [optOr, lastMatchOffsetFrom, hX]
          | none => simp [optOr, lastMatchOffsetFrom, hX, hrm]
        · have hrm : rowMatchesLabel mapping label (t :: ts) = false := by
            simp [rowMatchesLabel, List.head?, hl]
            exact fun hh => heq hh.symm
          rw [if_neg heq]
          cases hX : lastMatchOffsetFrom mapping label (n + 1) rest with
          | some v => simp [optOr, lastMatchOffsetFrom, hX]
          | none => simp [optOr, lastMatchOffsetFrom, hX, hrm]

lemma lastMatchOffsetFrom_none_of_no_match
    (mapping : List (String × SectionHeading)) (label : SectionHeading) :
    ∀ (rows : List (List String)) (n : ℕ),
      (∀ r ∈ rows, rowMatchesLabel mapping label r = false) →
      lastMatchOffsetFrom mapping label n rows = none := by
  intro rows
  induction rows with
  | nil => intro n _; rfl
  | cons r rest ih =>
    intro n h
    have hr := h r (List.mem_cons_self r rest)
    have hrest := ih (n + 1)
      (fun x hx => h x (List.mem_cons_of_mem _ hx))
    simp [lastMatchOffsetFrom, hrest, hr]

lemma optOr_none_right (a : Option ℤ) : optOr a none = a := by
  cases a <;> rfl

lemma scan_isSome (mapping : List (String × SectionHeading))
    (rows : List (List String)) (hne : ∀ r ∈ rows, r ≠ []) :
    (extract_section_indexes mapping rows).isSome = true := by
  obtain ⟨m, hm, _⟩ := scan_char mapping rows 0 [] hne
  rw [extract_section_indexes, hm]
  rfl

lemma locate_offset_eq_lastMatch (mapping : List (String × SectionHeading))
    (rows : List (List String)) (label : SectionHeading)
    (hne : ∀ r ∈ rows, r ≠ []) :
    locate_offset mapping rows label = lastMatchOffset mapping label rows := by
  obtain ⟨m, hm, hlk⟩ := scan_char mapping rows 0 [] hne
  rw [locate_offset, extract_section_indexes, hm]
  show dictLookup m label = lastMatchOffset mapping label rows
  rw [hlk label]
  show optOr (lastMatchOffsetFrom mapping label 0 rows) none
    = lastMatchOffset mapping label rows
  rw [optOr_none_right, lastMatchOffset]

/-- Claim C5: the section locator records, for each label, the offset
`rowIndex + 2` of the last row whose first field maps to that label
(last-match-wins), and rows matching no heading leave the offset map
unchanged: on rows that all have a first field, the scan succeeds and
every label's recorded offset equals `lastMatchOffset`. -/
theorem c5_locator_last_match_wins (mapping : List (String × SectionHeading))
    (rows : List (List String)) (label : SectionHeading)
    (hne : ∀ r ∈ rows, r ≠ []) :
    (extract_section_indexes mapping rows).isSome = true
    ∧ locate_offset mapping rows label = lastMatchOffset mapping label rows :=
  ⟨scan_isSome mapping rows hne,
    locate_offset_eq_lastMatch mapping rows label hne⟩

theorem c5_locator_last_match_wins_witness :
    (∀ r ∈ ([["Start time"], ["hdr"], ["Start time"], ["hdr2"],
        ["d", "03/21/24, 02:15:07 PM"]] : List (List String)), r ≠ [])
    ∧ ((extract_section_indexes section_headings_mapping
        [["Start time"], ["hdr"], ["Start time"], ["hdr2"],
          ["d", "03/21/24, 02:15:07 PM"]]).isSome = true
      ∧ locate_offset section_headings_mapping
          [["Start time"], ["hdr"], ["Start time"], ["hdr2"],
            ["d", "03/21/24, 02:15:07 PM"]] SectionHeading.START_TIME
        = lastMatchOffset section_headings_mapping SectionHeading.START_TIME
            [["Start time"], ["hdr"], ["Start time"], ["hdr2"],
              ["d", "03/21/24, 02:15:07 PM"]]) :=
  ⟨by decide,
    c5_locator_last_match_wins section_headings_mapping
      [["Start time"], ["hdr"], ["Start time"], ["hdr2"],
        ["d", "03/21/24, 02:15:07 PM"]] SectionHeading.START_TIME (by decide)⟩

/-- Claim C7: when no row's first field maps to `START_TIME`, the
locate pass still completes (the scan succeeds), the label resolves to
no offset, and the missing-section failure surfaces only in the
dependent accessor: `start_time` fails with the KeyError modelled as
`none`. -/
theorem c7_missing_section_fails_at_accessor
    (mapping : List (String × SectionHeading)) (rows : List (List String))
    (parse : String → Option ℤ) (hne : ∀ r ∈ rows, r ≠ [])
    (habsent : ∀ r ∈ rows,
      rowMatchesLabel mapping SectionHeading.START_TIME r = false) :
    (extract_section_indexes mapping rows).isSome = true
    ∧ locate_offset mapping rows SectionHeading.START_TIME = none
    ∧ read_start_time mapping parse rows = none := by
  have hnone : locate_offset mapping rows SectionHeading.START_TIME = none := by
    rw [locate_offset_eq_lastMatch mapping rows SectionHeading.START_TIME hne,
      lastMatchOffset,
      lastMatchOffsetFrom_none_of_no_match mapping SectionHeading.START_TIME
        rows 0 habsent]
  refine ⟨scan_isSome mapping rows hne, hnone, ?_⟩
  obtain ⟨m, hm, _⟩ := scan_char mapping rows 0 [] hne
  have hlk : dictLookup m SectionHeading.START_TIME = none := by
    have := hnone
    rw [locate_offset, extract_section_indexes, hm] at this
    exact this
  rw [read_start_time, extract_section_indexes, hm]
  show extract_start_time parse m rows = none
  rw [extract_start_time, hlk]
  rfl

theorem c7_missing_section_fails_at_accessor_witness :
    (∀ r ∈ ([["2. Participants"], ["data"]] : List (List String)), r ≠ [])
    ∧ (∀ r ∈ ([["2. Participants"], ["data"]] : List (List String)),
        rowMatchesLabel section_headings_mapping
          SectionHeading.START_TIME r = false)
    ∧ ((extract_section_indexes section_headings_mapping
          [["2. Participants"], ["data"]]).isSome = true
      ∧ locate_offset section_headings_mapping [["2. Participants"], ["data"]]
          SectionHeading.START_TIME = none
      ∧ read_start_time section_headings_mapping (fun _ => none)
          [["2. Participants"], ["data"]] = none) :=
  ⟨by decide, by decide,
    c7_missing_section_fails_at_accessor section_headings_mapping
      [["2. Participants"], ["data"]] (fun _ => none)
      (by decide) (by decide)⟩

/-- Claim C10: the locator reads `record[0]` without guarding empty
rows: the scan is total on row sequences whose rows all have at least
one field, and it fails on a sequence containing a zero-field row —
here `[["data"], []]`, whose empty row is not a heading yet aborts the
scan. -/
theorem c10_locator_unguarded_first_field :
    (∀ (mapping : List (String × SectionHeading))
        (rows : List (List String)), (∀ r ∈ rows, r ≠ []) →
        (extract_section_indexes mapping rows).isSome = true)
    ∧ extract_section_indexes section_headings_mapping [["data"], []]
        = none :=
  ⟨fun mapping rows hne => scan_isSome mapping rows hne, by decide⟩

theorem c10_locator_unguarded_first_field_witness :
    (∀ r ∈ ([["data"], ["Start time"]] : List (List String)), r ≠ [])
    ∧ (extract_section_indexes section_headings_mapping
        [["data"], ["Start time"]]).isSome = true :=
  ⟨by decide,
    c10_locator_unguarded_first_field.1 section_headings_mapping
      [["data"], ["Start time"]] (by decide)⟩

lemma drop_eq_cons_of_get {α : Type} :
    ∀ (l : List α) (j : ℕ) (r : α), l.get? j = some r →
      l.drop j = r :: l.drop (j + 1) := by
  intro l
  induction l with
  | nil => intro j r h; simp at h
  | cons x xs ih =>
    intro j r h
    cases j with
    | zero =>
      rw [List.get?_cons_zero] at h
      cases h
      rfl
    | succ j =>
      rw [List.get?_cons_succ] at h
      rw [List.drop_succ_cons, List.drop_succ_cons]
      exact ih j r h

lemma decodeRows_eq_slice {α : Type} (dec : List String → Option α)
    (rows : List (List String)) :
    ∀ (n : ℕ) (a c : ℤ), 0 ≤ a → c ≤ (rows.length : ℤ) →
      (c - a).toNat = n →
      decodeRows dec rows (pythonRange a c)
        = traverseDecode dec (sliceRows rows a c) := by
  intro n
  induction n with
  | zero =>
    intro a c ha hc h0
    have h1 : pythonRange a c = [] := by
      unfold pythonRange
      rw [h0]
      rfl
    have h2 : sliceRows rows a c = [] := by
      unfold sliceRows
      rw [h0]
      exact List.take_zero _
    rw [h1, h2]
    rfl
  | succ n ih =>
    intro a c ha hc hn
    have hac : a < c := by omega
    have h1 : pythonRange a c = a :: pythonRange (a + 1) c := by
      unfold pythonRange
      rw [show (c - a).toNat = (c - (a + 1)).toNat + 1 from by omega,
        List.range_succ_eq_map]
      rw [List.map_cons, List.map_map]
      congr 1
      · simp
      · apply List.map_congr_left
        intro i _
        show a + ((Nat.succ i : ℕ) : ℤ) = (a + 1) + (i : ℤ)
        push_cast
        ring
    have halen : a.toNat < rows.length := by omega
    obtain ⟨r, hr⟩ : ∃ r, rows.get? a.toNat = some r := by
      rw [List.get?_eq_get halen]
      exact ⟨_, rfl⟩
    have h2 : sliceRows rows a c = r :: sliceRows rows (a + 1) c := by
      unfold sliceRows
      rw [drop_eq_cons_of_get rows a.toNat r hr]
      rw [show (c - a).toNat = (c - (a + 1)).toNat + 1 from by omega,
        List.take_succ_cons]
      rw [show (a + 1).toNat = a.toNat + 1 from by omega]
    have hga : listGetPy rows a = some r := by
      unfold listGetPy
      rw [if_pos ha, hr]
    have IH := ih (a + 1) c (by omega) hc (by omega)
    rw [h1, h2]
    simp only [decodeRows, traverseDecode, hga, Option.some_bind, IH]
    rfl

/-- Claim C6: `participants` decodes exactly the rows of the half-open
range `[offset[PARTICIPANTS], offset[MEETING_ACTIVITIES] - 3)` in
order, `in_meeting_activities` decodes exactly the rows of
`[offset[MEETING_ACTIVITIES], offset[VIDEO_AND_AUDIO_CONSENT] - 3)` in
order, and when a range's end is at or before its start the accessor
returns the empty sequence rather than failing. -/
theorem c6_accessors_decode_half_open_ranges
    (mapping : List (String × SectionHeading)) (parse : String → Option ℤ)
    (rows : List (List String)) (a b c : ℤ)
    (hP : locate_offset mapping rows SectionHeading.PARTICIPANTS = some a)
    (hM : locate_offset mapping rows SectionHeading.MEETING_ACTIVITIES
        = some b)
    (hC : locate_offset mapping rows SectionHeading.VIDEO_AND_AUDIO_CONSENT
        = some c)
    (ha : 0 ≤ a) (hb : 0 ≤ b)
    (hbl : b - 3 ≤ (rows.length : ℤ)) (hcl : c - 3 ≤ (rows.length : ℤ)) :
    read_participants mapping parse rows
        = traverseDecode (decodeParticipantRow parse) (sliceRows rows a (b - 3))
    ∧ read_in_meeting_activities mapping parse rows
        = traverseDecode (decodeActivityRow parse) (sliceRows rows b (c - 3))
    ∧ (b - 3 ≤ a → read_participants mapping parse rows = some [])
    ∧ (c - 3 ≤ b →
        read_in_meeting_activities mapping parse rows = some []) := by
  unfold locate_offset at hP hM hC
  cases hscan : extract_section_indexes mapping rows with
  | none =>
    rw [hscan, Option.none_bind] at hP
    exact absurd hP (by simp)
  | some m =>
    rw [hscan, Option.some_bind] at hP hM hC
    have h1 : read_participants mapping parse rows
        = decodeRows (decodeParticipantRow parse) rows
            (pythonRange a (b - 3)) := by
      unfold read_participants
      rw [hscan, Option.some_bind]
      unfold extract_participants
      rw [hP, hM]
      rfl
    have h2 : read_in_meeting_activities mapping parse rows
        = decodeRows (decodeActivityRow parse) rows
            (pythonRange b (c - 3)) := by
      unfold read_in_meeting_activities
      rw [hscan, Option.some_bind]
      unfold extract_in_meeting_activities
      rw [hM, hC]
      rfl
    refine ⟨?_, ?_, ?_, ?_⟩
    · rw [h1, decodeRows_eq_slice (decodeParticipantRow parse) rows
        ((b - 3) - a).toNat a (b - 3) ha hbl rfl]
    · rw [h2, decodeRows_eq_slice (decodeActivityRow parse) rows
        ((c - 3) - b).toNat b (c - 3) hb hcl rfl]
    · intro hba
      rw [h1, show pythonRange a (b - 3) = [] from ?_]
      · rfl
      · unfold pythonRange
        rw [show ((b - 3) - a).toNat = 0 from by omega]
        rfl
    · intro hcb
      rw [h2, show pythonRange b (c - 3) = [] from ?_]
      · rfl
      · unfold pythonRange
        rw [show ((c - 3) - b).toNat = 0 from by omega]
        rfl

theorem c6_accessors_decode_half_open_ranges_witness :
    (locate_offset section_headings_mapping
        [["2. Participants"], ["hdr"],
         ["p1", "t", "t", "d", "e1", "id", "role"],
         ["p2", "t", "t", "d", "e2", "id", "role"], ["sep"],
         ["3. In-Meeting Activities"], ["hdr"],
         ["act", "t", "t", "d", "e1", "role"], ["sep"],
         ["4. Explicit Audio and Video Consent Information"]]
        SectionHeading.PARTICIPANTS = some 2)
    ∧ (read_participants section_headings_mapping
        (fun s => if s = "t" then some 0 else none)
        [["2. Participants"], ["hdr"],
         ["p1", "t", "t", "d", "e1", "id", "role"],
         ["p2", "t", "t", "d", "e2", "id", "role"], ["sep"],
         ["3. In-Meeting Activities"], ["hdr"],
         ["act", "t", "t", "d", "e1", "role"], ["sep"],
         ["4. Explicit Audio and Video Consent Information"]]
        = traverseDecode (decodeParticipantRow
            (fun s => if s = "t" then some 0 else none))
            (sliceRows
              [["2. Participants"], ["hdr"],
               ["p1", "t", "t", "d", "e1", "id", "role"],
               ["p2", "t", "t", "d", "e2", "id", "role"], ["sep"],
               ["3. In-Meeting Activities"], ["hdr"],
               ["act", "t", "t", "d", "e1", "role"], ["sep"],
               ["4. Explicit Audio and Video Consent Information"]]
              2 (7 - 3))) :=
  ⟨by decide,
    (c6_accessors_decode_half_open_ranges section_headings_mapping
      (fun s => if s = "t" then some 0 else none)
      [["2. Participants"], ["hdr"],
       ["p1", "t", "t", "d", "e1", "id", "role"],
       ["p2", "t", "t", "d", "e2", "id", "role"], ["sep"],
       ["3. In-Meeting Activities"], ["hdr"],
       ["act", "t", "t", "d", "e1", "role"], ["sep"],
       ["4. Explicit Audio and Video Consent Information"]]
      2 7 11 (by decide) (by decide) (by decide) (by decide) (by decide)
      (by decide) (by decide)).1⟩

lemma lastMatchOffsetFrom_shift (mapping : List (String × SectionHeading))
    (label : SectionHeading) (k : ℕ) :
    ∀ (rows : List (List String)) (n : ℕ),
      lastMatchOffsetFrom mapping label (k + n) rows
        = (lastMatchOffsetFrom mapping label n rows).map
            (fun v => v + (k : ℤ)) := by
  intro rows
  induction rows with
  | nil => intro n; rfl
  | cons r rest ih =>
    intro n
    simp only [lastMatchOffsetFrom]
    rw [show k + n + 1 = k + (n + 1) from by omega, ih (n + 1)]
    cases hX : lastMatchOffsetFrom mapping label (n + 1) rest with
    | some v => rfl
    | none =>
      simp only [Option.map_none']
      by_cases hr : rowMatchesLabel mapping label r = true
      · rw [if_pos hr, if_pos hr, Option.map_some']
        congr 1
        push_cast
        ring
      · rw [if_neg hr, if_neg hr]
        rfl

lemma lastMatchOffsetFrom_append_junk
    (mapping : List (String × SectionHeading)) (label : SectionHeading)
    (rows : List (List String)) :
    ∀ (junk : List (List String)) (n : ℕ),
      (∀ r ∈ junk, rowMatchesLabel mapping label r = false) →
      lastMatchOffsetFrom mapping label n (junk ++ rows)
        = lastMatchOffsetFrom mapping label (n + junk.length) rows := by
  intro junk
  induction junk with
  | nil => intro n _; simp
  | cons j js ih =>
    intro n h
    have hj := h j (List.mem_cons_self j js)
    have hrec := ih (n + 1) (fun x hx => h x (List.mem_cons_of_mem _ hx))
    have hstep : lastMatchOffsetFrom mapping label n ((j :: js) ++ rows)
        = match lastMatchOffsetFrom mapping label (n + 1) (js ++ rows) with
          | some v => some v
          | none => if rowMatchesLabel mapping label j = true
              then some ((n : ℤ) + 2) else none := rfl
    rw [hstep, hrec, hj]
    rw [List.length_cons,
      show n + 1 + js.length = n + (js.length + 1) from by omega]
    cases lastMatchOffsetFrom mapping label (n + (js.length + 1)) rows <;>
      simp

lemma lastMatchOffsetFrom_nonneg (mapping : List (String × SectionHeading))
    (label : SectionHeading) :
    ∀ (rows : List (List String)) (n : ℕ) (v : ℤ),
      lastMatchOffsetFrom mapping label n rows = some v → 0 ≤ v := by
  intro rows
  induction rows with
  | nil => intro n v h; exact absurd h (by simp [lastMatchOffsetFrom])
  | cons r rest ih =>
    intro n v h
    simp only [lastMatchOffsetFrom] at h
    cases hX : lastMatchOffsetFrom mapping label (n + 1) rest with
    | some w =>
      rw [hX] at h
      injection h with h
      subst h
      exact ih (n + 1) w hX
    | none =>
      rw [hX] at h
      by_cases hr : rowMatchesLabel mapping label r = true
      · rw [if_pos hr] at h
        injection h with h
        omega
      · rw [if_neg hr] at h
        exact absurd h (by simp)

lemma listGetPy_append_shift (junk rows : List (List String)) {i : ℤ}
    (hi : 0 ≤ i) :
    listGetPy (junk ++ rows) (i + (junk.length : ℤ)) = listGetPy rows i := by
  unfold listGetPy
  rw [if_pos (by omega : (0:ℤ) ≤ i + (junk.length : ℤ)), if_pos hi]
  rw [show (i + (junk.length : ℤ)).toNat = junk.length + i.toNat from by omega]
  rw [List.get?_append_right (Nat.le_add_right _ _)]
  congr 1
  omega

lemma decodeRows_shift {α : Type} (dec : List String → Option α)
    (junk rows : List (List String)) :
    ∀ l : List ℤ, (∀ i ∈ l, 0 ≤ i) →
      decodeRows dec (junk ++ rows)
          (l.map (fun i => i + (junk.length : ℤ)))
        = decodeRows dec rows l := by
  intro l
  induction l with
  | nil => intro _; rfl
  | cons i rest ih =>
    intro h
    have hi := h i (List.mem_cons_self i rest)
    have hrec := ih (fun x hx => h x (List.mem_cons_of_mem _ hx))
    simp only [List.map_cons, decodeRows,
      listGetPy_append_shift junk rows hi, hrec]

lemma pythonRange_shift (a c k : ℤ) :
    pythonRange (a + k) (c + k) = (pythonRange a c).map (fun i => i + k) := by
  unfold pythonRange
  rw [show c + k - (a + k) = c - a from by ring]
  rw [List.map_map]
  apply List.map_congr_left
  intro i _
  show (a + k) + (i : ℤ) = (a + (i : ℤ)) + k
  ring

lemma pythonRange_mem_nonneg {a c i : ℤ} (ha : 0 ≤ a)
    (h : i ∈ pythonRange a c) : 0 ≤ i := by
  unfold pythonRange at h
  obtain ⟨j, _, rfl⟩ := List.mem_map.1 h
  omega

lemma isNonHeadingRow_ne_nil (mapping : List (String × SectionHeading))
    (r : List String) (h : isNonHeadingRow mapping r = true) : r ≠ [] := by
  intro hr
  subst hr
  simp [isNonHeadingRow, List.head?] at h

lemma isNonHeadingRow_no_match (mapping : List (String × SectionHeading))
    (r : List String) (label : SectionHeading)
    (h : isNonHeadingRow mapping r = true) :
    rowMatchesLabel mapping label r = false := by
  unfold isNonHeadingRow at h
  unfold rowMatchesLabel
  cases hh : r.head? with
  | none => rfl
  | some t =>
    rw [hh] at h
    have hiso : (headingLookup mapping t).isNone = true := h
    show (headingLookup mapping t == some label) = false
    cases hl : headingLookup mapping t with
    | none => rfl
    | some s => rw [hl] at hiso; simp at hiso

lemma locate_offset_append_junk (mapping : List (String × SectionHeading))
    (junk rows : List (List String)) (label : SectionHeading)
    (hjunk : ∀ r ∈ junk, isNonHeadingRow mapping r = true)
    (hrows : ∀ r ∈ rows, r ≠ []) :
    locate_offset mapping (junk ++ rows) label
      = (locate_offset mapping rows label).map
          (fun v => v + (junk.length : ℤ)) := by
  have hall : ∀ r ∈ junk ++ rows, r ≠ [] := by
    intro r hr
    rcases List.mem_append.1 hr with h | h
    · exact isNonHeadingRow_ne_nil mapping r (hjunk r h)
    · exact hrows r h
  rw [locate_offset_eq_lastMatch mapping (junk ++ rows) label hall,
    locate_offset_eq_lastMatch mapping rows label hrows]
  unfold lastMatchOffset
  rw [lastMatchOffsetFrom_append_junk mapping label rows junk 0
    (fun r hr => isNonHeadingRow_no_match mapping r label (hjunk r hr))]
  rw [show 0 + junk.length = junk.length + 0 from by omega]
  exact lastMatchOffsetFrom_shift mapping label junk.length rows 0

lemma locate_offset_nonneg (mapping : List (String × SectionHeading))
    (rows : List (List String)) (label : SectionHeading) (v : ℤ)
    (hrows : ∀ r ∈ rows, r ≠ [])
    (h : locate_offset mapping rows label = some v) : 0 ≤ v := by
  rw [locate_offset_eq_lastMatch mapping rows label hrows] at h
  exact lastMatchOffsetFrom_nonneg mapping label rows 0 v h

lemma extract_participants_shift (parse : String → Option ℤ)
    (junk rows : List (List String)) (m mj : List (SectionHeading × ℤ))
    (hP : dictLookup mj SectionHeading.PARTICIPANTS
        = (dictLookup m SectionHeading.PARTICIPANTS).map
            (fun v => v + (junk.length : ℤ)))
    (hM : dictLookup mj SectionHeading.MEETING_ACTIVITIES
        = (dictLookup m SectionHeading.MEETING_ACTIVITIES).map
            (fun v => v + (junk.length : ℤ)))
    (hnn : ∀ v, dictLookup m SectionHeading.PARTICIPANTS = some v → 0 ≤ v) :
    extract_participants parse mj (junk ++ rows)
      = extract_participants parse m rows := by
  unfold extract_participants
  simp only [hP, hM]
  cases hA : dictLookup m SectionHeading.PARTICIPANTS with
  | none => simp [Option.bind_eq_bind]
  | some a =>
    cases hB : dictLookup m SectionHeading.MEETING_ACTIVITIES with
    | none => simp [Option.bind_eq_bind]
    | some b =>
      simp only [Option.map_some', Option.bind_eq_bind, Option.some_bind]
      rw [show b + (junk.length : ℤ) - 3 = (b - 3) + (junk.length : ℤ)
        from by ring]
      rw [pythonRange_shift]
      exact decodeRows_shift (decodeParticipantRow parse) junk rows _
        (fun i hi => pythonRange_mem_nonneg (hnn a hA) hi)

lemma extract_in_meeting_activities_shift (parse : String → Option ℤ)
    (junk rows : List (List String)) (m mj : List (SectionHeading × ℤ))
    (hM : dictLookup mj SectionHeading.MEETING_ACTIVITIES
        = (dictLookup m SectionHeading.MEETING_ACTIVITIES).map
            (fun v => v + (junk.length : ℤ)))
    (hC : dictLookup mj SectionHeading.VIDEO_AND_AUDIO_CONSENT
        = (dictLookup m SectionHeading.VIDEO_AND_AUDIO_CONSENT).map
            (fun v => v + (junk.length : ℤ)))
    (hnn : ∀ v, dictLookup m SectionHeading.MEETING_ACTIVITIES = some v →
      0 ≤ v) :
    extract_in_meeting_activities parse mj (junk ++ rows)
      = extract_in_meeting_activities parse m rows := by
  unfold extract_in_meeting_activities
  simp only [hM, hC]
  cases hA : dictLookup m SectionHeading.MEETING_ACTIVITIES with
  | none => simp [Option.bind_eq_bind]
  | some a =>
    cases hB : dictLookup m SectionHeading.VIDEO_AND_AUDIO_CONSENT with
    | none => simp [Option.bind_eq_bind]
    | some b =>
      simp only [Option.map_some', Option.bind_eq_bind, Option.some_bind]
      rw [show b + (junk.length : ℤ) - 3 = (b - 3) + (junk.length : ℤ)
        from by ring]
      rw [pythonRange_shift]
      exact decodeRows_shift (decodeActivityRow parse) junk rows _
        (fun i hi => pythonRange_mem_nonneg (hnn a hA) hi)

/-- Claim C9: prepending `k` rows whose first fields match no configured
heading keeps the scan total, shifts every located offset by exactly
`k`, and leaves the decoded `participants` and `in_meeting_activities`
sequences unchanged. -/
theorem c9_leading_junk_shifts_offsets
    (mapping : List (String × SectionHeading))
    (junk rows : List (List String)) (parse : String → Option ℤ)
    (label : SectionHeading)
    (hjunk : ∀ r ∈ junk, isNonHeadingRow mapping r = true)
    (hrows : ∀ r ∈ rows, r ≠ []) :
    (extract_section_indexes mapping (junk ++ rows)).isSome = true
    ∧ locate_offset mapping (junk ++ rows) label
        = (locate_offset mapping rows label).map
            (fun v => v + (junk.length : ℤ))
    ∧ read_participants mapping parse (junk ++ rows)
        = read_participants mapping parse rows
    ∧ read_in_meeting_activities mapping parse (junk ++ rows)
        = read_in_meeting_activities mapping parse rows := by
  have hall : ∀ r ∈ junk ++ rows, r ≠ [] := by
    intro r hr
    rcases List.mem_append.1 hr with h | h
    · exact isNonHeadingRow_ne_nil mapping r (hjunk r h)
    · exact hrows r h
  obtain ⟨m, hm, _⟩ := scan_char mapping rows 0 [] hrows
  obtain ⟨mj, hmj, _⟩ := scan_char mapping (junk ++ rows) 0 [] hall
  have hlocm : ∀ lab, locate_offset mapping rows lab = dictLookup m lab := by
    intro lab
    rw [locate_offset, extract_section_indexes, hm, Option.some_bind]
  have hlocmj : ∀ lab, locate_offset mapping (junk ++ rows) lab
      = dictLookup mj lab := by
    intro lab
    rw [locate_offset, extract_section_indexes, hmj, Option.some_bind]
  have hshift : ∀ lab, dictLookup mj lab
      = (dictLookup m lab).map (fun v => v + (junk.length : ℤ)) := by
    intro lab
    rw [← hlocm lab, ← hlocmj lab]
    exact locate_offset_append_junk mapping junk rows lab hjunk hrows
  have hnnP : ∀ v, dictLookup m SectionHeading.PARTICIPANTS = some v →
      0 ≤ v := by
    intro v hv
    exact locate_offset_nonneg mapping rows SectionHeading.PARTICIPANTS v
      hrows (by rw [hlocm]; exact hv)
  have hnnM : ∀ v, dictLookup m SectionHeading.MEETING_ACTIVITIES = some v →
      0 ≤ v := by
    intro v hv
    exact locate_offset_nonneg mapping rows SectionHeading.MEETING_ACTIVITIES
      v hrows (by rw [hlocm]; exact hv)
  refine ⟨scan_isSome mapping (junk ++ rows) hall,
    locate_offset_append_junk mapping junk rows label hjunk hrows, ?_, ?_⟩
  · rw [read_participants, read_participants, extract_section_indexes,
      extract_section_indexes, hm, hmj, Option.some_bind, Option.some_bind]
    exact extract_participants_shift parse junk rows m mj
      (hshift SectionHeading.PARTICIPANTS)
      (hshift SectionHeading.MEETING_ACTIVITIES) hnnP
  · rw [read_in_meeting_activities, read_in_meeting_activities,
      extract_section_indexes, extract_section_indexes, hm, hmj,
      Option.some_bind, Option.some_bind]
    exact extract_in_meeting_activities_shift parse junk rows m mj
      (hshift SectionHeading.MEETING_ACTIVITIES)
      (hshift SectionHeading.VIDEO_AND_AUDIO_CONSENT) hnnM

theorem c9_leading_junk_shifts_offsets_witness :
    (∀ r ∈ ([["x"]] : List (List String)),
      isNonHeadingRow section_headings_mapping r = true)
    ∧ (∀ r ∈ ([["3. In-Meeting Activities"], ["h"],
        ["4. Explicit Audio and Video Consent Information"]] :
          List (List String)), r ≠ [])
    ∧ ((extract_section_indexes section_headings_mapping
        ([["x"]] ++ [["3. In-Meeting Activities"], ["h"],
          ["4. Explicit Audio and Video Consent Information"]])).isSome
            = true
      ∧ locate_offset section_headings_mapping
          ([["x"]] ++ [["3. In-Meeting Activities"], ["h"],
            ["4. Explicit Audio and Video Consent Information"]])
          SectionHeading.MEETING_ACTIVITIES
        = (locate_offset section_headings_mapping
            [["3. In-Meeting Activities"], ["h"],
              ["4. Explicit Audio and Video Consent Information"]]
            SectionHeading.MEETING_ACTIVITIES).map
              (fun v => v + (([["x"]] : List (List String)).length : ℤ))
      ∧ read_participants section_headings_mapping (fun _ => none)
          ([["x"]] ++ [["3. In-Meeting Activities"], ["h"],
            ["4. Explicit Audio and Video Consent Information"]])
        = read_participants section_headings_mapping (fun _ => none)
            [["3. In-Meeting Activities"], ["h"],
              ["4. Explicit Audio and Video Consent Information"]]
      ∧ read_in_meeting_activities section_headings_mapping (fun _ => none)
          ([["x"]] ++ [["3. In-Meeting Activities"], ["h"],
            ["4. Explicit Audio and Video Consent Information"]])
        = read_in_meeting_activities section_headings_mapping
            (fun _ => none)
            [["3. In-Meeting Activities"], ["h"],
              ["4. Explicit Audio and Video Consent Information"]]) :=
  ⟨by decide, by decide,
    c9_leading_junk_shifts_offsets section_headings_mapping [["x"]]
      [["3. In-Meeting Activities"], ["h"],
        ["4. Explicit Audio and Video Consent Information"]]
      (fun _ => none) SectionHeading.MEETING_ACTIVITIES
      (by decide) (by decide)⟩
